import Mathlib

/-!
Verification of the node-haste `ResolutionRequest` resolver
(src/src/DependencyGraph/ResolutionRequest.js) against its design
specification.

The JavaScript source is shallowly embedded: promises are evaluated
eagerly (the resolver performs no observable interleaving inside one
resolution chain), a thrown error becomes `Except.error`, a module is
identified by its absolute path (the Module Cache memoizes by path, so
path equality is module identity), and the external collaborators
(fastfs file index, helpers, package redirection, asset name matching)
are fields of an environment record.
-/

namespace NodeHaste

/-! ## Error model

The source has one error class, `UnableToResolveError` (lines 440-452),
recognized everywhere by `error.type === 'UnableToResolveError'`.  Any
other thrown value is some other error; we model the dichotomy with a
two-constructor inductive.  `UnableToResolveError` formats its message
as `util.format('Unable to resolve module %s from %s: %s', ...)`.
-/

inductive RErr where
  | unableToResolve (msg : String)
  | other (msg : String)
deriving DecidableEq, Repr

/-- `error.type === 'UnableToResolveError'` (source line 52). -/
def RErr.isUTR : RErr → Bool
  | .unableToResolve _ => true
  | .other _ => false

/-- `new UnableToResolveError(fromModule, toModule, message)`, whose
`message` field is `'Unable to resolve module %s from %s: %s'`
(source lines 440-449). -/
def mkUTR (fromPath toName msg : String) : RErr :=
  .unableToResolve
    ("Unable to resolve module " ++ toName ++ " from " ++ fromPath ++ ": " ++ msg)

/-- Whether a resolution result is a success (promise fulfilled). -/
def isResolved : Except RErr String → Bool
  | .ok _ => true
  | .error _ => false

instance {ε α : Type} [DecidableEq ε] [DecidableEq α] : DecidableEq (Except ε α)
  | .ok a, .ok b =>
    if h : a = b then .isTrue (by rw [h]) else .isFalse (by simp [h])
  | .error a, .error b =>
    if h : a = b then .isTrue (by rw [h]) else .isFalse (by simp [h])
  | .ok _, .error _ => .isFalse (by simp)
  | .error _, .ok _ => .isFalse (by simp)

/-! ## Path helpers

The source manipulates POSIX path strings through `fast-path`
(`path.dirname`, `path.join`) and `path.parse(p).root` (which is `"/"`
for the absolute paths the resolver works with).  We implement the
same operations on path strings directly; they are structural
recursions so that concrete runs reduce in the kernel.
-/

/-- Split a character list at `'/'` separators (accumulator holds the
current component reversed). -/
def splitSlashGo : List Char → List Char → List String
  | [], acc => [String.mk acc.reverse]
  | c :: cs, acc =>
    if c = '/' then String.mk acc.reverse :: splitSlashGo cs []
    else splitSlashGo cs (c :: acc)

/-- The nonempty components of a path string. -/
def splitPath (s : String) : List String :=
  (splitSlashGo s.data []).filter (fun c => c ≠ "")

/-- Rebuild an absolute path from components; the empty component list
is the filesystem root `"/"`. -/
def joinComps (cs : List String) : String :=
  if cs = [] then "/" else cs.foldl (fun acc c => acc ++ "/" ++ c) ""

/-- One step of path normalization: `""` and `"."` vanish, `".."` pops
the last component (at the root it stays at the root, as
`path.join('/..') === '/'`). -/
def normStep (acc : List String) (c : String) : List String :=
  if c = "" ∨ c = "." then acc
  else if c = ".." then acc.dropLast
  else acc ++ [c]

def normComps (cs : List String) : List String :=
  cs.foldl normStep []

/-- `path.join(p₁, p₂, ...)` on absolute paths: concatenate all
segments' components and normalize. -/
def pjoin (parts : List String) : String :=
  joinComps (normComps (parts.foldr (fun p acc => splitPath p ++ acc) []))

/-- `path.dirname` on an absolute path. -/
def dirname (s : String) : String :=
  joinComps (splitPath s).dropLast

/-- The `absolute-path` collaborator: a POSIX path is absolute iff it
starts with `'/'`. -/
def isAbsolutePathStr (s : String) : Bool :=
  match s.data with
  | '/' :: _ => true
  | _ => false

/-! ## `_tryResolve` (source lines 50-57)

`action().catch(error => { if (error.type !== 'UnableToResolveError')
throw error; return secondaryAction(); })`. -/

def tryResolve {α : Type} (action secondaryAction : Unit → Except RErr α) :
    Except RErr α :=
  match action () with
  | .ok v => .ok v
  | .error e => if e.isUTR then secondaryAction () else .error e

/-! ## Resolver environment

External collaborators consumed by the loader and the Node resolver
(spec §6): the fastfs file index, the helpers, the per-package
redirection, and the asset pattern matcher.  `assetMatch p` abstracts
the composition of `getAssetDataFromName` (external, `../lib`) with
`fastfs.matches(dirname, pattern)` at lines 348-361: it yields the
first file of `dirname p` matching the generated asset pattern, if
any.  `redirect from spec` abstracts
`fromModule.getPackage()?.redirectRequire(spec) ?? spec` (lines
271-278).  `packageMain manifest` abstracts
`moduleCache.getPackage(manifest).getMain()` (lines 411-412). -/

structure ResolveEnv where
  platform : Option String := none
  preferNativePlatform : Bool := false
  isAssetFile : String → Bool := fun _ => false
  fileExists : String → Bool
  dirExists : String → Bool := fun _ => false
  assetMatch : String → Option String := fun _ => none
  redirect : String → String → String := fun _ spec => spec
  packageMain : String → String := fun _ => ""

/-! ## `_loadAsFile` (source lines 336-391) -/

/-- The `.native.js` / `.js` / `.json` probes closing `_loadAsFile`
(lines 374-387). -/
def loadAsFileTail (env : ResolveEnv) (p fromPath toName : String) :
    Except RErr String :=
  if env.preferNativePlatform && env.fileExists (p ++ ".native.js") then
    .ok (p ++ ".native.js")
  else if env.fileExists (p ++ ".js") then .ok (p ++ ".js")
  else if env.fileExists (p ++ ".json") then .ok (p ++ ".json")
  else .error (mkUTR fromPath toName ("File " ++ p ++ " doesnt exist"))

/-- The extension-probing part of `_loadAsFile` (lines 368-390): the
exact path, then `path + '.' + platform + '.js'` when a platform is
set, then the `loadAsFileTail` probes; the failure is the
`UnableToResolveError` naming the original candidate path. -/
def loadAsFileRest (env : ResolveEnv) (p fromPath toName : String) :
    Except RErr String :=
  if env.fileExists p then .ok p
  else
    match env.platform with
    | some pl =>
      if env.fileExists (p ++ "." ++ pl ++ ".js") then .ok (p ++ "." ++ pl ++ ".js")
      else loadAsFileTail env p fromPath toName
    | none => loadAsFileTail env p fromPath toName

/-- `_loadAsFile(potentialModulePath, fromModule, toModule)`: the asset
prelude (lines 338-366) falls through to the extension probes when the
asset pattern matches nothing in an existing directory. -/
def loadAsFile (env : ResolveEnv) (p fromPath toName : String) :
    Except RErr String :=
  if env.isAssetFile p then
    if !env.dirExists (dirname p) then
      .error (mkUTR fromPath toName ("Directory " ++ dirname p ++ " doesnt exist"))
    else
      match env.assetMatch p with
      | some assetFile => .ok assetFile
      | none => loadAsFileRest env p fromPath toName
  else loadAsFileRest env p fromPath toName

/-! ## `_loadAsDir` (source lines 393-426)

A package main may itself be a directory, so `_loadAsDir` recurses
through package mains; the `fuel` parameter bounds that recursion
depth (the fuel-exhaustion outcome is a non-`UnableToResolve` artifact
never reached at the fuel values used below).  The long remediation
advice in the source's missing-directory message is kept to its first
sentence. -/

def loadAsDir (env : ResolveEnv) : Nat → String → String → String → Except RErr String
  | 0, _, _, _ => .error (.other "package main recursion limit")
  | fuel + 1, p, fromPath, toName =>
    if !env.dirExists p then
      .error (mkUTR fromPath toName
        ("Unable to find this module in its module map or any of the node_modules directories under "
          ++ p ++ " and its parent directories"))
    else if env.fileExists (pjoin [p, "package.json"]) then
      tryResolve
        (fun _ => loadAsFile env (env.packageMain (pjoin [p, "package.json"])) fromPath toName)
        (fun _ => loadAsDir env fuel (env.packageMain (pjoin [p, "package.json"])) fromPath toName)
    else
      loadAsFile env (pjoin [p, "index"]) fromPath toName

/-! ## `_resolveFileOrDir` (source lines 280-291) -/

/-- The candidate path handed to the file/dir loaders: join relative
specifiers onto the requester's directory (absolute specifiers skip
the join, line 281), then apply the package redirect. -/
def fileOrDirTarget (env : ResolveEnv) (fromPath toName : String) : String :=
  env.redirect fromPath
    (if isAbsolutePathStr toName then toName else pjoin [dirname fromPath, toName])

def resolveFileOrDir (env : ResolveEnv) (fuel : Nat) (fromPath toName : String) :
    Except RErr String :=
  tryResolve
    (fun _ => loadAsFile env (fileOrDirTarget env fromPath toName) fromPath toName)
    (fun _ => loadAsDir env fuel (fileOrDirTarget env fromPath toName) fromPath toName)

/-! ## `_resolveNodeDependency` (source lines 293-334) -/

/-- Does the character list start with the given pattern?  (Used for
the JavaScript `String.prototype.lastIndexOf` model below.) -/
def charsLeadMatch : List Char → List Char → Bool
  | [], _ => true
  | _ :: _, [] => false
  | a :: as, b :: bs => a == b && charsLeadMatch as bs

/-- `hay.lastIndexOf(needle)` on character lists: the greatest start
index at which `needle` occurs, if any (JavaScript returns `-1`
otherwise, handled at the use site). -/
def lastStart (hay needle : List Char) : Option Nat :=
  ((List.range (hay.length + 1)).filter
    (fun i => charsLeadMatch needle (hay.drop i))).getLast?

/-- `hay.indexOf(c, start)` on character lists, with JavaScript's `-1`
for "not found". -/
def jsIndexOfFrom (hay : List Char) (c : Char) (start : Nat) : Int :=
  match ((List.range hay.length).filter
      (fun i => start ≤ i && hay.get? i == some c)).head? with
  | some i => (i : Int)
  | none => -1

/-- Lines 301-302: `fromModule.path.slice(0,
fromModule.path.indexOf('/', fromModule.path.lastIndexOf('node_modules/') + 13))`
— the `node_modules/<pkg>` directory enclosing the requester.  When
`indexOf` yields `-1`, JavaScript's `slice(0, -1)` drops the final
character. -/
def nodeModulesDirOf (fromPath : String) : String :=
  let cs := fromPath.data
  let li : Int := match lastStart cs "node_modules/".data with
    | some i => (i : Int)
    | none => -1
  let si : Int := jsIndexOfFrom cs '/' (li + 13).toNat
  let stop : Nat := if si < 0 then cs.length - 1 else si.toNat
  String.mk (cs.take stop)

/-- The ascending `node_modules` candidate queue (lines 307-314): for
`currDir` running from the requester's directory up to (excluding) the
root, `path.join(currDir, 'node_modules', realModuleName)`.  The
directory is given by its component list; the `Nat` argument is the
component count, making the recursion structural. -/
def searchQueueAux (realName : String) : Nat → List String → List String
  | 0, _ => []
  | _ + 1, [] => []
  | k + 1, c :: cs =>
    pjoin [joinComps (c :: cs), "node_modules", realName]
      :: searchQueueAux realName k (c :: cs).dropLast

def searchQueue (realName : String) (dirComps : List String) : List String :=
  searchQueueAux realName dirComps.length dirComps

/-- The promise chain of lines 316-329: starting from the rejected
`'Node module not found'` promise, each candidate wraps the chain in
`_tryResolve(_tryResolve(p, loadAsFile), loadAsDir)`. -/
def nodeSearch (tryFile tryDir : String → Except RErr String)
    (queue : List String) (init : Except RErr String) : Except RErr String :=
  queue.foldl
    (fun p c =>
      tryResolve (fun _ => tryResolve (fun _ => p) (fun _ => tryFile c))
        (fun _ => tryDir c))
    init

/-- `_resolveNodeDependency(fromModule, toModuleName)`.  Note the
source's branch test (line 294) compares character 1 — not 0 — of the
specifier against `'/'`. -/
def resolveNodeDependency (env : ResolveEnv) (fuel : Nat) (fromPath toName : String) :
    Except RErr String :=
  if toName.data.get? 0 = some '.' ∨ toName.data.get? 1 = some '/' then
    resolveFileOrDir env fuel fromPath toName
  else
    let realName := env.redirect fromPath toName
    if realName.data.get? 0 = some '.' ∨ realName.data.get? 1 = some '/' then
      resolveFileOrDir env fuel fromPath (pjoin [nodeModulesDirOf fromPath, realName])
    else
      nodeSearch (fun c => loadAsFile env c fromPath toName)
        (fun c => loadAsDir env fuel c fromPath toName)
        (searchQueue realName (splitPath (dirname fromPath)))
        (.error (mkUTR fromPath toName "Node module not found"))

/-! ## `resolveDependency` (source lines 59-112) and the resolution memo

`resolveDependency` checks `this._immediateResolutionCache[resHash]`,
then the deprecated asset map, then runs the Haste-or-Node pipeline
with `.then(cacheResult, forgive)`.  Both the Haste-capable branch
(lines 98-104) and the Node-only branch (lines 107-111) apply the
identical `.then(cacheResult, forgive)` treatment, so the composite
pipeline is abstracted here as a `pipeline` function; the memo and
forgiveness behavior around it is embedded exactly.

The memo maps `resolutionHash` keys to modules.  The source tests the
cached entry for truthiness; only `cacheResult` ever writes the memo,
and it only ever receives fulfilled pipeline values (modules, which
are truthy), so a hit is exactly a present key.  `resolvePath` stands
for the external `path.resolve` used by `resolutionHash` (line 436);
`shouldThrow` is the value of the policy hook
`shouldThrowOnUnresolvedErrors(entryPath, platform)` for this
request's entry and platform. -/

structure RDCfg where
  resolvePath : String → String := fun p => p
  assetResolve : String → String → Option String := fun _ _ => none
  pipeline : String → String → Except RErr String
  shouldThrow : Bool := true

/-- `resolutionHash(modulePath, depName)` (lines 435-437). -/
def resolutionHash (cfg : RDCfg) (modulePath depName : String) : String :=
  cfg.resolvePath modulePath ++ ":" ++ depName

/-- Association-list lookup, modelling property access on the
`Object.create(null)` cache. -/
def alookup {α : Type} (k : String) : List (String × α) → Option α
  | [] => none
  | (k', v) :: rest => if k' = k then some v else alookup k rest

/-- The outcome of one `resolveDependency` call: the settled value
(`ok (some m)` a module, `ok none` the forgiven `null`, `error e` a
rejection), the memo afterwards, and whether the resolution pipeline
was run (as opposed to answering from the memo or the deprecated
asset map). -/
structure RDOut where
  result : Except RErr (Option String)
  cache : List (String × String)
  pipelineRan : Bool
deriving DecidableEq, Repr

/-- `resolveDependency(fromModule, toModuleName)` acting on the memo
`cache`. -/
def resolveDependencyM (cfg : RDCfg) (cache : List (String × String))
    (fromPath toName : String) : RDOut :=
  let resHash := resolutionHash cfg fromPath toName
  match alookup resHash cache with
  | some m => ⟨.ok (some m), cache, false⟩
  | none =>
    match cfg.assetResolve fromPath toName with
    | some assetModule => ⟨.ok (some assetModule), cache, false⟩
    | none =>
      match cfg.pipeline fromPath toName with
      | .ok m => ⟨.ok (some m), (resHash, m) :: cache, true⟩
      | .error e =>
        if !e.isUTR || cfg.shouldThrow then ⟨.error e, cache, true⟩
        else ⟨.ok none, cache, true⟩

/-! ## `getOrderedDependencies` (source lines 114-207)

Modules are abstract identities `Fin n` (the Module Cache returns the
same instance for the same path, and `hash()` is injective on
instances, so the visited-set of hashes is a set of modules).  For
each visited module the collector obtains its declared dependency
names, resolves each through `resolveDependency` — whose settled
per-edge outcome is a module or a tolerated `null`, `CEnv.resolve` —
merges mocks, filters the `null` pairs, records the pairs, and
recurses into targets not yet visited.

The JavaScript runs the per-edge work behind promises, but every
mutation of `visited` and `mocks` happens inside synchronous `.then`
continuations: all new dependencies of a module are marked visited in
one synchronous loop (lines 193-198) before any child's own
continuation runs.  The embedding therefore threads `visited` and
`mocks` sequentially: mark all children, then collect each child in
declaration order.  `fuel` bounds the recursion depth; the
sufficiency lemmas below show `n` fuel always suffices, which is the
termination argument for the source's traversal. -/

structure CEnv (n : Nat) where
  depNames : Fin n → List String
  resolve : Fin n → String → Option (Fin n)
  allMocks : Option (List (String × Fin n)) := none
  modName : Fin n → String := fun _ => ""
  pkgName : Fin n → Option String := fun _ => none

/-- Lines 137-156: when a mock map is active, append a pair for the
module's own name and its package's name if a mock exists for it and
no mock of that name was claimed yet (`allMocks[name] && !mocks[name]`). -/
def mergeMocks {n : Nat} (env : CEnv n) (mod : Fin n) (mocks : List String)
    (depNames : List String) (deps : List (Option (Fin n))) :
    List String × List (Option (Fin n)) × List String :=
  match env.allMocks with
  | none => (depNames, deps, mocks)
  | some am =>
    (env.modName mod ::
      (match env.pkgName mod with | some pn => [pn] | none => [])).foldl
      (fun st name =>
        match alookup name am with
        | some mockMod =>
          if name ∈ st.2.2 then st
          else (st.1 ++ [name], st.2.1 ++ [some mockMod], st.2.2 ++ [name])
        | none => st)
      (depNames, deps, mocks)

/-- The loop body of lines 160-181: a resolved pair is kept; a `null`
resolution is replaced by an unclaimed mock of the same name when the
mock map has one, and is dropped otherwise. -/
def filterStep {n : Nat} (env : CEnv n)
    (st : List (String × Fin n) × List String) (pr : String × Option (Fin n)) :
    List (String × Fin n) × List String :=
  match pr.2 with
  | some m => (st.1 ++ [(pr.1, m)], st.2)
  | none =>
    match env.allMocks with
    | some am =>
      (match alookup pr.1 am with
      | some mockMod =>
        if pr.1 ∈ st.2 then (st.1, st.2)
        else (st.1 ++ [(pr.1, mockMod)], st.2 ++ [pr.1])
      | none => (st.1, st.2))
    | none => (st.1, st.2)

/-- Lines 157-181: build `filteredPairs`, dropping `null` resolutions
unless an unclaimed mock of the same name substitutes for them. -/
def filterPairs {n : Nat} (env : CEnv n) (mocks : List String)
    (pairs : List (String × Option (Fin n))) :
    List (String × Fin n) × List String :=
  pairs.foldl (filterStep env) ([], mocks)

/-- The resolved dependency pairs recorded for one module (the value
passed to `response.setResolvedDependencyPairs`, line 183), along
with the updated claimed-mocks table. -/
def modulePairs {n : Nat} (env : CEnv n) (mod : Fin n) (mocks : List String) :
    List (String × Fin n) × List String :=
  let dn := env.depNames mod
  let mm := mergeMocks env mod mocks dn (dn.map (env.resolve mod))
  filterPairs env mm.2.2 (mm.1.zip mm.2.1)

/-- In a build without mocks, a module's resolved dependency targets:
each declared name that resolves to a module (tolerated `null`
resolutions vanish). -/
def children {n : Nat} (env : CEnv n) (mod : Fin n) : List (Fin n) :=
  (env.depNames mod).filterMap (env.resolve mod)

/-- The dependency edge relation of a build without mocks. -/
def edge {n : Nat} (env : CEnv n) (a b : Fin n) : Prop :=
  b ∈ children env a

/-- What one `collect` subtree produces: the visited set and
claimed-mocks table afterwards, the recorded per-module pairs, the
flattened subtree in the order `recursiveFlatten` yields (the order
of `response.pushDependency` at line 203), and the modules in the
order they were marked visited (discovery order). -/
structure CollectOut (n : Nat) where
  visited : Finset (Fin n)
  mocks : List String
  recorded : List (Fin n × List (String × Fin n))
  flat : List (Fin n)
  disc : List (Fin n)
deriving DecidableEq

/-- Sequentially collect each newly discovered dependency (the
`Promise.all` over `newDependencies`, lines 193-198). -/
def goF {n : Nat}
    (step : Fin n → Finset (Fin n) → List String → Option (CollectOut n)) :
    List (Fin n) → Finset (Fin n) → List String → Option (CollectOut n)
  | [], v, mk => some ⟨v, mk, [], [], []⟩
  | d :: rest, v, mk =>
    (step d v mk).bind fun o1 =>
      (goF step rest o1.visited o1.mocks).map fun o2 =>
        ⟨o2.visited, o2.mocks, o1.recorded ++ o2.recorded,
          d :: o1.flat ++ o2.flat, o1.disc ++ o2.disc⟩

/-- `collect(mod)` (lines 131-200): resolve the module's dependency
pairs, record them, mark every not-yet-visited target visited, then
collect each such target. -/
def collectF {n : Nat} (env : CEnv n) :
    Nat → Fin n → Finset (Fin n) → List String → Option (CollectOut n)
  | 0, _, _, _ => none
  | fuel + 1, mod, visited, mocks =>
    let pm := modulePairs env mod mocks
    let newDeps := (pm.1.filter (fun pr => pr.2 ∉ visited)).map Prod.snd
    (goF (fun d v mk => collectF env fuel d v mk) newDeps
        (visited ∪ newDeps.toFinset) pm.2).map fun o =>
      ⟨o.visited, o.mocks, (mod, pm.1) :: o.recorded, o.flat, newDeps ++ o.disc⟩

/-- The Response's module sequence: the entry is pushed first (line
127), then `recursiveFlatten` of the collected forest (line 203). -/
def getOrderedDeps {n : Nat} (env : CEnv n) (fuel : Nat) (entry : Fin n) :
    Option (List (Fin n)) :=
  (collectF env fuel entry {entry} []).map fun o => entry :: o.flat

/-- The modules in the order they entered the visited set. -/
def discoveryOrder {n : Nat} (env : CEnv n) (fuel : Nat) (entry : Fin n) :
    Option (List (Fin n)) :=
  (collectF env fuel entry {entry} []).map fun o => entry :: o.disc

/-- The per-module resolved pairs recorded during the build. -/
def recordedPairs {n : Nat} (env : CEnv n) (fuel : Nat) (entry : Fin n) :
    Option (List (Fin n × List (String × Fin n))) :=
  (collectF env fuel entry {entry} []).map fun o => o.recorded

/-! ## Specification-side definitions

These restate parts of the spec in direct form, to be compared with
the embedded source functions above. -/

/-- The spec's fixed probe order for a non-asset candidate path
(§4.5): the exact path; the platform variant when a platform is set;
the `.native.js` variant when native-preferring mode is enabled;
`.js`; `.json`. -/
def probeList (env : ResolveEnv) (p : String) : List String :=
  [p]
    ++ (match env.platform with
        | some pl => [p ++ "." ++ pl ++ ".js"]
        | none => [])
    ++ (if env.preferNativePlatform then [p ++ ".native.js"] else [])
    ++ [p ++ ".js", p ++ ".json"]

/-- "The first probe that exists in the file index is returned; no
match is an `UnableToResolve` failure naming the original path." -/
def probeFind (env : ResolveEnv) (p fromPath toName : String) :
    Except RErr String :=
  match (probeList env p).find? env.fileExists with
  | some q => .ok q
  | none => .error (mkUTR fromPath toName ("File " ++ p ++ " doesnt exist"))

/-- The spec's normative semantics of the node_modules ancestor
search (§4.4, §9): candidates in ascending order; at each candidate
file-resolution then directory-resolution; the first success wins; an
`UnableToResolve` failure carries on to the next alternative and any
other failure aborts the search; when every candidate fails the
carried failure is the most recent one (so, the last candidate's
directory failure). -/
def searchSpec (tryFile tryDir : String → Except RErr String) :
    List String → RErr → Except RErr String
  | [], e => .error e
  | c :: rest, e =>
    if e.isUTR = false then .error e
    else
      match tryFile c with
      | .ok m => .ok m
      | .error ef =>
        if ef.isUTR = false then .error ef
        else
          match tryDir c with
          | .ok m => .ok m
          | .error ed => searchSpec tryFile tryDir rest ed

/-- Every member of `l` other than a member of `children env root` is
preceded by some member it is a child of: the defining property of a
depth-first preorder listing of the discovery tree below `root`. -/
def ParentedFrom {n : Nat} (env : CEnv n) (root : Fin n) (l : List (Fin n)) : Prop :=
  ∀ a x b, l = a ++ x :: b → x ∈ children env root ∨ ∃ p ∈ a, x ∈ children env p

/-! ## Concrete instances used by the witnesses and counterexamples -/

/-- A file index containing only `/root/x.json` (spec §8, second
property). -/
def envOnlyXJson : ResolveEnv := { fileExists := fun s => s == "/root/x.json" }

/-- `node_modules/lib` present at both `/root/app/node_modules` and
`/root/node_modules` (spec §8, third property). -/
def envTwoLibs : ResolveEnv := {
  fileExists := fun s =>
    s == "/root/app/node_modules/lib/index.js" || s == "/root/node_modules/lib/index.js"
  dirExists := fun s =>
    s == "/root/app/node_modules/lib" || s == "/root/node_modules/lib"
}

/-- An empty file index: every resolution attempt fails. -/
def envNoFiles : ResolveEnv := { fileExists := fun _ => false }

/-- A file index holding `/root/x` (an absolute-specifier target) and
`/root/node_modules/q/w.js` (the ascending-search target of the bare
specifier `q/w`). -/
def envSlashBug : ResolveEnv := {
  fileExists := fun s => s == "/root/x" || s == "/root/node_modules/q/w.js"
}

/-- An asset candidate whose directory exists but whose asset pattern
matches nothing, with `/assets/icon.js` on disk. -/
def envAssetMiss : ResolveEnv := {
  isAssetFile := fun _ => true
  dirExists := fun _ => true
  fileExists := fun s => s == "/assets/icon.js"
}

/-- A pipeline that always fails with `UnableToResolve` under a
non-throwing policy hook. -/
def cfgForgive : RDCfg := {
  pipeline := fun fromPath toName => .error (mkUTR fromPath toName "Node module not found")
  shouldThrow := false
}

/-- A pipeline that resolves every name to `/lib/m.js`. -/
def cfgOk : RDCfg := { pipeline := fun _ _ => .ok "/lib/m.js" }

/-- A deprecated-asset map matching every pair with `/assets/m2.png`,
next to a memo that already holds `/m1.js` for the probed key. -/
def cfgAsset : RDCfg := {
  assetResolve := fun _ _ => some "/assets/m2.png"
  pipeline := fun fromPath toName => .error (mkUTR fromPath toName "Node module not found")
}

/-- Entry `0` requires `1` and `2`; `1` requires `3` (so `2` is
discovered before `3`). -/
def envWide : CEnv 4 := {
  depNames := fun m => if m = 0 then ["a", "b"] else if m = 1 then ["c"] else []
  resolve := fun m nm =>
    if m = 0 then (if nm = "a" then some 1 else if nm = "b" then some 2 else none)
    else if m = 1 then (if nm = "c" then some 3 else none)
    else none
}

/-- Entry `0` requires module `1` twice, under two different names. -/
def envDup : CEnv 2 := {
  depNames := fun m => if m = 0 then ["a", "b"] else []
  resolve := fun m _ => if m = 0 then some 1 else none
}

/-- The circular graph: `0` requires `1` and `1` requires `0`. -/
def envCycle : CEnv 2 := {
  depNames := fun m => if m = 0 then ["b"] else ["a"]
  resolve := fun m _ => if m = 0 then some 1 else some 0
}

/-- Entry `0` has one unresolved (tolerated) dependency `"x"` and one
resolved dependency on `1`, which requires `2`. -/
def envTolerated : CEnv 3 := {
  depNames := fun m => if m = 0 then ["x", "y"] else if m = 1 then ["z"] else []
  resolve := fun m nm =>
    if m = 0 then (if nm = "y" then some 1 else none)
    else if m = 1 then (if nm = "z" then some 2 else none)
    else none
}

/-! # Claim theorems -/

theorem loadAsFileRest_eq_probeFind (env : ResolveEnv) (p fromPath toName : String) :
    loadAsFileRest env p fromPath toName = probeFind env p fromPath toName := by
  unfold loadAsFileRest probeFind probeList loadAsFileTail
  cases hpl : env.platform <;>
    cases hn : env.preferNativePlatform <;>
      by_cases h1 : env.fileExists p <;>
        simp [h1, List.find?] <;>
          split_ifs <;> simp_all [List.find?]

/-- C5: in every fallback chain the next alternative runs if and only
if the previous attempt failed with an error of kind `UnableToResolve`:
`_tryResolve` passes a success through, runs the secondary action
exactly when the first action failed with `UnableToResolveError`, and
propagates any other error untouched; instantiated at the
file-then-directory composite of `_resolveFileOrDir`. -/
theorem c5_fallback_gating :
    (∀ (α : Type) (m : α) (b : Unit → Except RErr α),
        tryResolve (fun _ => .ok m) b = .ok m) ∧
    (∀ (α : Type) (e : RErr) (b : Unit → Except RErr α),
        e.isUTR = true → tryResolve (fun _ => .error e) b = b ()) ∧
    (∀ (α : Type) (e : RErr) (b : Unit → Except RErr α),
        e.isUTR = false → tryResolve (fun _ => .error e) b = .error e) ∧
    (∀ (env : ResolveEnv) (fuel : Nat) (fromPath toName m : String),
        loadAsFile env (fileOrDirTarget env fromPath toName) fromPath toName = .ok m →
        resolveFileOrDir env fuel fromPath toName = .ok m) ∧
    (∀ (env : ResolveEnv) (fuel : Nat) (fromPath toName : String) (e : RErr),
        loadAsFile env (fileOrDirTarget env fromPath toName) fromPath toName = .error e →
        e.isUTR = true →
        resolveFileOrDir env fuel fromPath toName =
          loadAsDir env fuel (fileOrDirTarget env fromPath toName) fromPath toName) := by
  refine ⟨?_, ?_, ?_, ?_, ?_⟩
  · intro α m b; rfl
  · intro α e b h; unfold tryResolve; simp [h]
  · intro α e b h; unfold tryResolve; simp [h]
  · intro env fuel f t m h; unfold resolveFileOrDir tryResolve; simp [h]
  · intro env fuel f t e h hU; unfold resolveFileOrDir tryResolve; simp [h, hU]

/-- C5 witness: a non-`UnableToResolve` error propagates out of
`_tryResolve` without the alternative running. -/
theorem c5_fallback_gating_witness :
    tryResolve (fun _ => .error (RErr.other "fastfs io failure"))
        (fun _ => (.ok "/never" : Except RErr String)) =
      .error (RErr.other "fastfs io failure") :=
  c5_fallback_gating.2.2.1 String (RErr.other "fastfs io failure")
    (fun _ => .ok "/never") rfl

/-- C4: for a non-asset candidate path, `_loadAsFile` probes the file
index in the fixed order exact path, platform variant (only when a
platform is set), `.native.js` (only in native-preferring mode),
`.js`, `.json`, returning the first probe that exists and failing with
`UnableToResolve` naming the original candidate when none does; with
only `/root/x.json` on disk, `./x` from `/root/a.js` resolves to
`/root/x.json`. -/
theorem c4_probe_order :
    (∀ (env : ResolveEnv) (p fromPath toName : String),
        env.isAssetFile p = false →
        loadAsFile env p fromPath toName = probeFind env p fromPath toName) ∧
      resolveFileOrDir envOnlyXJson 1 "/root/a.js" "./x" = .ok "/root/x.json" := by
  constructor
  · intro env p f t h
    unfold loadAsFile
    simp [h, loadAsFileRest_eq_probeFind]
  · decide

/-- C4 witness: the probe-order theorem evaluated on the file index
holding only `/root/x.json`. -/
theorem c4_probe_order_witness :
    loadAsFile envOnlyXJson "/root/x" "/root/a.js" "./x" = .ok "/root/x.json" := by
  rw [c4_probe_order.1 envOnlyXJson "/root/x" "/root/a.js" "./x" rfl]
  decide

/-- C10: when `_loadAsFile` is called on an asset path whose directory
exists but whose generated asset pattern matches nothing, the call does
not fail there: it falls through to the ordinary non-asset probes and
fails with `UnableToResolve` only if those also all miss. -/
theorem c10_asset_fallthrough :
    ∀ (env : ResolveEnv) (p fromPath toName : String),
      env.isAssetFile p = true →
      env.dirExists (dirname p) = true →
      env.assetMatch p = none →
      loadAsFile env p fromPath toName = probeFind env p fromPath toName := by
  intro env p f t h1 h2 h3
  unfold loadAsFile
  simp [h1, h2, h3, loadAsFileRest_eq_probeFind]

/-- C10 witness: an asset candidate with no pattern match resolves
through the ordinary `.js` probe. -/
theorem c10_asset_fallthrough_witness :
    loadAsFile envAssetMiss "/assets/icon" "/assets/a.js" "./icon" = .ok "/assets/icon.js" := by
  rw [c10_asset_fallthrough envAssetMiss "/assets/icon" "/assets/a.js" "./icon" rfl rfl rfl]
  decide

/-- C3: the code contradicts the claimed classification.  Line 294
tests character 1 — not character 0 — of the specifier against `'/'`,
so the absolute specifier `/root/x` is routed into the ascending
node_modules search (and fails even though `/root/x` exists and
file-or-directory resolution would return it), while the bare
specifier `q/w` is routed to file-or-directory resolution (and fails
even though the ascending search it should have used finds
`/root/node_modules/q/w.js`). -/
theorem c3_specifier_classification_bug :
    envSlashBug.fileExists "/root/x" = true ∧
    resolveFileOrDir envSlashBug 3 "/root/a.js" "/root/x" = .ok "/root/x" ∧
    isResolved (resolveNodeDependency envSlashBug 3 "/root/a.js" "/root/x") = false ∧
    envSlashBug.fileExists "/root/node_modules/q/w.js" = true ∧
    isResolved (nodeSearch (fun c => loadAsFile envSlashBug c "/root/a.js" "q/w")
      (fun c => loadAsDir envSlashBug 3 c "/root/a.js" "q/w")
      (searchQueue "q/w" (splitPath (dirname "/root/a.js")))
      (.error (mkUTR "/root/a.js" "q/w" "Node module not found"))) = true ∧
    isResolved (resolveNodeDependency envSlashBug 3 "/root/a.js" "q/w") = false := by
  decide


/-- C2 (amended): within one session, a first call that resolves a
module through the pipeline stores it in the memo under
`resolutionHash` before returning, and a later call for the same pair
returns that identical stored module without re-running the pipeline;
a tolerated `null` outcome, however, is not stored, and later calls
run the pipeline again. -/
theorem c2_memo_amended :
    ∀ (cfg : RDCfg) (cache : List (String × String)) (fromPath toName : String),
      alookup (resolutionHash cfg fromPath toName) cache = none →
      cfg.assetResolve fromPath toName = none →
      ((∀ m : String, cfg.pipeline fromPath toName = .ok m →
          resolveDependencyM cfg cache fromPath toName =
            ⟨.ok (some m), (resolutionHash cfg fromPath toName, m) :: cache, true⟩ ∧
          resolveDependencyM cfg ((resolutionHash cfg fromPath toName, m) :: cache)
              fromPath toName =
            ⟨.ok (some m), (resolutionHash cfg fromPath toName, m) :: cache, false⟩) ∧
        (∀ e : RErr, cfg.pipeline fromPath toName = .error e →
          e.isUTR = true → cfg.shouldThrow = false →
          resolveDependencyM cfg cache fromPath toName = ⟨.ok none, cache, true⟩)) := by
  intro cfg cache fromPath toName hmiss hasset
  constructor
  · intro m hpipe
    constructor
    · unfold resolveDependencyM
      simp [hmiss, hasset, hpipe]
    · unfold resolveDependencyM
      simp [alookup]
  · intro e hpipe hU hT
    unfold resolveDependencyM
    simp [hmiss, hasset, hpipe, hU, hT]

/-- C2 witness: the memoization theorem evaluated at a pipeline that
resolves `m` to `/lib/m.js`. -/
theorem c2_memo_witness :
    resolveDependencyM cfgOk [] "/app/a.js" "m" =
        ⟨.ok (some "/lib/m.js"), [(resolutionHash cfgOk "/app/a.js" "m", "/lib/m.js")], true⟩ ∧
      resolveDependencyM cfgOk [(resolutionHash cfgOk "/app/a.js" "m", "/lib/m.js")]
          "/app/a.js" "m" =
        ⟨.ok (some "/lib/m.js"), [(resolutionHash cfgOk "/app/a.js" "m", "/lib/m.js")], false⟩ :=
  (c2_memo_amended cfgOk [] "/app/a.js" "m" rfl rfl).1 "/lib/m.js" rfl

/-- C2 counterexample: after a first call whose outcome is the
tolerated `null`, the memo does not contain the pair's key and the
second call runs the pipeline again — the claim's "stores its outcome
(including a tolerated null outcome)" and "every later call returns
immediately with that identical stored value" are false. -/
theorem c2_null_not_memoized_counterexample :
    resolveDependencyM cfgForgive [] "/app/a.js" "m" = ⟨.ok none, [], true⟩ ∧
    alookup (resolutionHash cfgForgive "/app/a.js" "m")
        (resolveDependencyM cfgForgive [] "/app/a.js" "m").cache = none ∧
    (resolveDependencyM cfgForgive
        (resolveDependencyM cfgForgive [] "/app/a.js" "m").cache "/app/a.js" "m").pipelineRan
      = true := by
  decide

/-- C9 (amended): on a memo miss, the deprecated asset map is
consulted before the pipeline; for every pair it matches, the match is
returned without writing the memo and without running the pipeline.
(The memo is read first: a memo hit returns before the asset map is
consulted.) -/
theorem c9_asset_shortcut_amended :
    ∀ (cfg : RDCfg) (cache : List (String × String)) (fromPath toName a : String),
      alookup (resolutionHash cfg fromPath toName) cache = none →
      cfg.assetResolve fromPath toName = some a →
      resolveDependencyM cfg cache fromPath toName = ⟨.ok (some a), cache, false⟩ := by
  intro cfg cache fromPath toName a hmiss hasset
  unfold resolveDependencyM
  simp [hmiss, hasset]

/-- C9 witness: the asset-shortcut theorem evaluated at a
deprecated-asset map matching `/assets/m2.png`. -/
theorem c9_asset_shortcut_witness :
    resolveDependencyM cfgAsset [] "/app/a.js" "icon" =
      ⟨.ok (some "/assets/m2.png"), [], false⟩ :=
  c9_asset_shortcut_amended cfgAsset [] "/app/a.js" "icon" "/assets/m2.png" rfl rfl

/-- C9 counterexample: with the memo already holding `/m1.js` for the
pair and the deprecated asset map yielding `/assets/m2.png`,
`resolveDependency` returns the memo value, not the asset match — the
claim's "consulted before the resolution memo" is false. -/
theorem c9_memo_first_counterexample :
    resolveDependencyM cfgAsset [(resolutionHash cfgAsset "/app/a.js" "icon", "/m1.js")]
        "/app/a.js" "icon" =
      ⟨.ok (some "/m1.js"), [(resolutionHash cfgAsset "/app/a.js" "icon", "/m1.js")], false⟩ ∧
    cfgAsset.assetResolve "/app/a.js" "icon" = some "/assets/m2.png" ∧
    ("/m1.js" : String) ≠ "/assets/m2.png" := by
  decide


theorem nodeSearch_cons (tf td : String → Except RErr String) (c : String)
    (q : List String) (init : Except RErr String) :
    nodeSearch tf td (c :: q) init =
      nodeSearch tf td q
        (tryResolve (fun _ => tryResolve (fun _ => init) (fun _ => tf c))
          (fun _ => td c)) := rfl

theorem nodeSearch_ok (tf td : String → Except RErr String) (m : String) :
    ∀ q : List String, nodeSearch tf td q (.ok m) = .ok m := by
  intro q
  induction q with
  | nil => rfl
  | cons c rest ih =>
    rw [nodeSearch_cons]
    have hstep : tryResolve (fun _ => tryResolve (fun _ => (.ok m : Except RErr String))
        (fun _ => tf c)) (fun _ => td c) = .ok m := rfl
    rw [hstep, ih]

theorem nodeSearch_fatal (tf td : String → Except RErr String) (e : RErr)
    (he : e.isUTR = false) :
    ∀ q : List String, nodeSearch tf td q (.error e) = .error e := by
  intro q
  induction q with
  | nil => rfl
  | cons c rest ih =>
    rw [nodeSearch_cons]
    have hstep : tryResolve (fun _ => tryResolve (fun _ => (.error e : Except RErr String))
        (fun _ => tf c)) (fun _ => td c) = .error e := by
      simp [tryResolve, he]
    rw [hstep, ih]

theorem nodeSearch_eq_searchSpec (tf td : String → Except RErr String) :
    ∀ (q : List String) (e : RErr),
      nodeSearch tf td q (.error e) = searchSpec tf td q e := by
  intro q
  induction q with
  | nil => intro e; rfl
  | cons c rest ih =>
    intro e
    rw [nodeSearch_cons, searchSpec]
    cases he : e.isUTR with
    | false =>
      have hstep : tryResolve (fun _ => tryResolve (fun _ => (.error e : Except RErr String))
          (fun _ => tf c)) (fun _ => td c) = .error e := by
        simp [tryResolve, he]
      rw [hstep, nodeSearch_fatal tf td e he rest]
      simp [he]
    | true =>
      simp only [he, Bool.true_eq_false, if_false]
      cases hf : tf c with
      | ok m =>
        have hstep : tryResolve (fun _ => tryResolve (fun _ => (.error e : Except RErr String))
            (fun _ => .ok m)) (fun _ => td c) = .ok m := by
          simp [tryResolve, he]
        rw [hstep, nodeSearch_ok]
      | error ef =>
        cases hef : ef.isUTR with
        | false =>
          have hstep : tryResolve (fun _ => tryResolve (fun _ => (.error e : Except RErr String))
              (fun _ => .error ef)) (fun _ => td c) = .error ef := by
            simp [tryResolve, he, hef]
          rw [hstep, nodeSearch_fatal tf td ef hef rest]
          simp [hef]
        | true =>
          simp only [hef, Bool.true_eq_false, if_false]
          cases hd : td c with
          | ok m =>
            have hstep : tryResolve (fun _ => tryResolve (fun _ => (.error e : Except RErr String))
                (fun _ => .error ef)) (fun _ => .ok m) = .ok m := by
              simp [tryResolve, he, hef]
            rw [hstep, nodeSearch_ok]
          | error ed =>
            have hstep : tryResolve (fun _ => tryResolve (fun _ => (.error e : Except RErr String))
                (fun _ => .error ef)) (fun _ => .error ed) = .error ed := by
              simp [tryResolve, he, hef]
            rw [hstep, ih ed]

theorem searchQueueAux_formula (name : String) :
    ∀ (k : Nat) (comps : List String), comps.length = k →
      searchQueueAux name k comps =
        (List.range k).map (fun i =>
          pjoin [joinComps (comps.take (k - i)), "node_modules", name]) := by
  intro k
  induction k with
  | zero => intro comps h; simp [searchQueueAux]
  | succ k ih =>
    intro comps h
    match comps, h with
    | c :: cs, h =>
      have hlen : (c :: cs).dropLast.length = k := by
        simp [List.length_dropLast] at h ⊢
        omega
      have hlen1 : (c :: cs).length - 1 = k := by
        simp at h ⊢
        omega
      have htop : (c :: cs).take (k + 1 - 0) = c :: cs := by
        apply List.take_of_length_le
        omega
      have htail : (List.range k).map
            ((fun i => pjoin [joinComps ((c :: cs).take (k + 1 - i)), "node_modules", name])
              ∘ Nat.succ) =
          (List.range k).map (fun i =>
            pjoin [joinComps ((c :: cs).dropLast.take (k - i)), "node_modules", name]) := by
        apply List.map_congr_left
        intro i hi
        have hik : i < k := List.mem_range.mp hi
        have hsub : k + 1 - (i + 1) = k - i := by omega
        have htake : (c :: cs).dropLast.take (k - i) = (c :: cs).take (k - i) := by
          rw [List.dropLast_eq_take, List.take_take, hlen1]
          congr 1
          omega
        simp only [Function.comp_apply, Nat.succ_eq_add_one]
        rw [htake, hsub]
      rw [searchQueueAux, ih (c :: cs).dropLast hlen, List.range_succ_eq_map]
      simp only [List.map_cons, List.map_map]
      rw [htop, htail]


/-- C1 (amended): the candidate queue lists
`<ancestor>/node_modules/<name>` for the requester's ancestors in
ascending order (immediate parent first, root exclusive); the promise
chain of the search is equivalent to trying each candidate in that
order, file-resolution then directory-resolution, first success wins,
with `UnableToResolve` failures carrying to the next alternative — so
that when every candidate fails the resulting failure is the LAST
candidate's directory failure, not the original 'Node module not
found' condition; and on the spec's two-ancestor example the closer
`node_modules` wins. -/
theorem c1_ascending_search_amended :
    (∀ (realName : String) (comps : List String),
        searchQueue realName comps =
          (List.range comps.length).map (fun i =>
            pjoin [joinComps (comps.take (comps.length - i)), "node_modules", realName])) ∧
    (∀ (tf td : String → Except RErr String) (queue : List String) (e : RErr),
        nodeSearch tf td queue (.error e) = searchSpec tf td queue e) ∧
      resolveNodeDependency envTwoLibs 9 "/root/app/src/a.js" "lib" =
        .ok "/root/app/node_modules/lib/index.js" := by
  refine ⟨?_, ?_, ?_⟩
  · intro realName comps
    exact searchQueueAux_formula realName comps.length comps rfl
  · intro tf td queue e
    exact nodeSearch_eq_searchSpec tf td queue e
  · decide

set_option maxRecDepth 4096 in
/-- C1 counterexample: with a single candidate and nothing on disk,
the node_modules search rejects with the last candidate's
directory-resolution error, not with the original 'Node module not
found' error the claim requires. -/
theorem c1_last_candidate_error_counterexample :
    resolveNodeDependency envNoFiles 3 "/a/b.js" "m" =
      .error (mkUTR "/a/b.js" "m"
        ("Unable to find this module in its module map or any of the node_modules directories under /a/node_modules/m and its parent directories")) ∧
    resolveNodeDependency envNoFiles 3 "/a/b.js" "m" ≠
      .error (mkUTR "/a/b.js" "m" "Node module not found") := by
  decide


theorem goF_nil {n : Nat}
    (step : Fin n → Finset (Fin n) → List String → Option (CollectOut n))
    (v : Finset (Fin n)) (mk : List String) :
    goF step [] v mk = some ⟨v, mk, [], [], []⟩ := rfl

theorem goF_cons {n : Nat}
    (step : Fin n → Finset (Fin n) → List String → Option (CollectOut n))
    (d : Fin n) (rest : List (Fin n)) (v : Finset (Fin n)) (mk : List String) :
    goF step (d :: rest) v mk =
      (step d v mk).bind fun o1 =>
        (goF step rest o1.visited o1.mocks).map fun o2 =>
          ⟨o2.visited, o2.mocks, o1.recorded ++ o2.recorded,
            d :: o1.flat ++ o2.flat, o1.disc ++ o2.disc⟩ := rfl

theorem collectF_succ {n : Nat} (env : CEnv n) (fuel : Nat) (mod : Fin n)
    (v : Finset (Fin n)) (mk : List String) :
    collectF env (fuel + 1) mod v mk =
      (goF (fun d v' mk' => collectF env fuel d v' mk')
          (((modulePairs env mod mk).1.filter (fun pr => pr.2 ∉ v)).map Prod.snd)
          (v ∪ ((((modulePairs env mod mk).1.filter
            (fun pr => pr.2 ∉ v)).map Prod.snd)).toFinset)
          (modulePairs env mod mk).2).map
        fun o =>
          ⟨o.visited, o.mocks, (mod, (modulePairs env mod mk).1) :: o.recorded, o.flat,
            ((((modulePairs env mod mk).1.filter
              (fun pr => pr.2 ∉ v)).map Prod.snd)) ++ o.disc⟩ := rfl

theorem mergeMocks_none {n : Nat} (env : CEnv n) (h : env.allMocks = none)
    (mod : Fin n) (mk : List String) (dn : List String) (ds : List (Option (Fin n))) :
    mergeMocks env mod mk dn ds = (dn, ds, mk) := by
  unfold mergeMocks
  rw [h]

theorem filterStep_some {n : Nat} (env : CEnv n)
    (st : List (String × Fin n) × List String) (nm : String) (m : Fin n) :
    filterStep env st (nm, some m) = (st.1 ++ [(nm, m)], st.2) := rfl

theorem filterStep_none {n : Nat} (env : CEnv n) (h : env.allMocks = none)
    (st : List (String × Fin n) × List String) (nm : String) :
    filterStep env st (nm, none) = st := by
  unfold filterStep
  rw [h]

theorem filterPairs_none_aux {n : Nat} (env : CEnv n) (h : env.allMocks = none) :
    ∀ (prs : List (String × Option (Fin n)))
      (st : List (String × Fin n) × List String),
      prs.foldl (filterStep env) st =
        (st.1 ++ prs.filterMap (fun pr => pr.2.map (fun m => (pr.1, m))), st.2) := by
  intro prs
  induction prs with
  | nil => intro st; simp
  | cons pr rest ih =>
    intro st
    match pr with
    | (nm, none) =>
      rw [List.foldl_cons, List.filterMap_cons, filterStep_none env h]
      rw [ih]
      simp
    | (nm, some m) =>
      rw [List.foldl_cons, List.filterMap_cons, filterStep_some env]
      rw [ih]
      simp

theorem filterPairs_none {n : Nat} (env : CEnv n) (h : env.allMocks = none)
    (mk : List String) (prs : List (String × Option (Fin n))) :
    filterPairs env mk prs =
      (prs.filterMap (fun pr => pr.2.map (fun m => (pr.1, m))), mk) := by
  unfold filterPairs
  rw [filterPairs_none_aux env h prs ([], mk)]
  simp

theorem zip_resolve_targets {n : Nat} (f : String → Option (Fin n)) :
    ∀ dn : List String,
      ((dn.zip (dn.map f)).filterMap
          (fun pr => pr.2.map (fun m => (pr.1, m)))).map Prod.snd =
        dn.filterMap f := by
  intro dn
  induction dn with
  | nil => rfl
  | cons d rest ih =>
    cases hf : f d <;> simp [hf, ih]

theorem modulePairs_none {n : Nat} (env : CEnv n) (h : env.allMocks = none)
    (mod : Fin n) (mk : List String) :
    (modulePairs env mod mk).1.map Prod.snd = children env mod ∧
      (modulePairs env mod mk).2 = mk := by
  simp only [modulePairs]
  rw [mergeMocks_none env h, filterPairs_none env h]
  exact ⟨zip_resolve_targets (env.resolve mod) (env.depNames mod), rfl⟩

theorem map_snd_filter_snd {α β : Type} (p : β → Bool) :
    ∀ l : List (α × β),
      (l.filter (fun pr => p pr.2)).map Prod.snd = (l.map Prod.snd).filter p := by
  intro l
  induction l with
  | nil => rfl
  | cons pr rest ih =>
    cases hp : p pr.2 <;> simp [List.filter_cons, hp, ih]

theorem newDeps_none {n : Nat} (env : CEnv n) (h : env.allMocks = none)
    (mod : Fin n) (mk : List String) (v : Finset (Fin n)) :
    ((modulePairs env mod mk).1.filter (fun pr => pr.2 ∉ v)).map Prod.snd =
      (children env mod).filter (fun d => d ∉ v) := by
  rw [map_snd_filter_snd (fun d => decide (d ∉ v)) (modulePairs env mod mk).1,
    (modulePairs_none env h mod mk).1]


theorem goF_mono {n : Nat}
    (step : Fin n → Finset (Fin n) → List String → Option (CollectOut n))
    (hstep : ∀ d v mk o, step d v mk = some o → v ⊆ o.visited) :
    ∀ (ds : List (Fin n)) (v : Finset (Fin n)) (mk : List String) (o : CollectOut n),
      goF step ds v mk = some o → v ⊆ o.visited := by
  intro ds
  induction ds with
  | nil =>
    intro v mk o h
    rw [goF_nil] at h
    cases h
    exact Finset.Subset.refl v
  | cons d rest ih =>
    intro v mk o h
    rw [goF_cons] at h
    obtain ⟨o1, h1, h'⟩ := Option.bind_eq_some.mp h
    obtain ⟨o2, h2, ho⟩ := Option.map_eq_some'.mp h'
    subst ho
    exact Finset.Subset.trans (hstep d v mk o1 h1) (ih o1.visited o1.mocks o2 h2)

theorem collectF_mono {n : Nat} (env : CEnv n) :
    ∀ (fuel : Nat) (mod : Fin n) (v : Finset (Fin n)) (mk : List String)
      (o : CollectOut n),
      collectF env fuel mod v mk = some o → v ⊆ o.visited := by
  intro fuel
  induction fuel with
  | zero => intro mod v mk o h; cases h
  | succ fuel ih =>
    intro mod v mk o h
    rw [collectF_succ] at h
    obtain ⟨oG, hG, ho⟩ := Option.map_eq_some'.mp h
    subst ho
    have hsub := goF_mono _ (fun d v' mk' o' h' => ih d v' mk' o' h') _ _ _ _ hG
    exact Finset.Subset.trans Finset.subset_union_left hsub

theorem goF_isSome {n : Nat}
    (step : Fin n → Finset (Fin n) → List String → Option (CollectOut n)) (C : Nat)
    (hmono : ∀ d v mk o, step d v mk = some o → v ⊆ o.visited)
    (hstep : ∀ d v mk, C ≤ v.card → (step d v mk).isSome) :
    ∀ (ds : List (Fin n)) (v : Finset (Fin n)) (mk : List String),
      C ≤ v.card → (goF step ds v mk).isSome := by
  intro ds
  induction ds with
  | nil => intro v mk _; rw [goF_nil]; rfl
  | cons d rest ih =>
    intro v mk hC
    rw [goF_cons]
    obtain ⟨o1, h1⟩ := Option.isSome_iff_exists.mp (hstep d v mk hC)
    rw [h1]
    have hC1 : C ≤ o1.visited.card :=
      le_trans hC (Finset.card_le_card (hmono d v mk o1 h1))
    obtain ⟨o2, h2⟩ :=
      Option.isSome_iff_exists.mp (ih o1.visited o1.mocks hC1)
    simp [h2]

theorem collectF_isSome {n : Nat} (env : CEnv n) :
    ∀ (fuel : Nat) (mod : Fin n) (v : Finset (Fin n)) (mk : List String),
      n < fuel + v.card → (collectF env fuel mod v mk).isSome := by
  intro fuel
  induction fuel with
  | zero =>
    intro mod v mk h
    exfalso
    have hv : v.card ≤ n := by
      have := Finset.card_le_univ v
      simpa using this
    omega
  | succ fuel ih =>
    intro mod v mk h
    rw [collectF_succ]
    rcases hds : ((modulePairs env mod mk).1.filter (fun pr => pr.2 ∉ v)).map Prod.snd
      with _ | ⟨d0, rest0⟩
    · rw [hds, goF_nil]
      rfl
    · rw [hds]
      have hd0mem : d0 ∈
          ((modulePairs env mod mk).1.filter (fun pr => pr.2 ∉ v)).map Prod.snd := by
        rw [hds]
        exact List.mem_cons_self d0 rest0
      have hd0notv : d0 ∉ v := by
        obtain ⟨pr, hpr, hpr2⟩ := List.mem_map.mp hd0mem
        have hf := List.of_mem_filter hpr
        rw [hpr2] at hf
        simpa using hf
      have hd0u : d0 ∈ v ∪ (d0 :: rest0).toFinset :=
        Finset.mem_union_right v
          (List.mem_toFinset.mpr (List.mem_cons_self d0 rest0))
      have hss : v ⊂ v ∪ (d0 :: rest0).toFinset := by
        rw [Finset.ssubset_iff_of_subset Finset.subset_union_left]
        exact ⟨d0, hd0u, hd0notv⟩
      have hcard : v.card + 1 ≤ (v ∪ (d0 :: rest0).toFinset).card :=
        Finset.card_lt_card hss
      have hgo : (goF (fun d v' mk' => collectF env fuel d v' mk') (d0 :: rest0)
          (v ∪ (d0 :: rest0).toFinset) (modulePairs env mod mk).2).isSome :=
        goF_isSome _ (v.card + 1)
          (fun d v' mk' o' h' => collectF_mono env fuel d v' mk' o' h')
          (fun d v' mk' hc => ih d v' mk' (by omega))
          (d0 :: rest0) _ _ hcard
      obtain ⟨oG, hG⟩ := Option.isSome_iff_exists.mp hgo
      rw [hG]
      rfl


theorem goF_invariant {n : Nat} (env : CEnv n)
    (step : Fin n → Finset (Fin n) → List String → Option (CollectOut n))
    (hstep : ∀ d v mk o, step d v mk = some o →
      o.visited = v ∪ o.flat.toFinset ∧
      (∀ x ∈ o.flat, x ∉ v) ∧
      ((∀ m, (children env m).Nodup) → o.flat.Nodup) ∧
      (∀ x ∈ o.flat, Relation.ReflTransGen (edge env) d x) ∧
      (∀ y ∈ children env d, y ∈ o.visited) ∧
      (∀ x ∈ o.flat, ∀ y ∈ children env x, y ∈ o.visited)) :
    ∀ (ds : List (Fin n)) (v : Finset (Fin n)) (mk : List String) (o : CollectOut n),
      goF step ds v mk = some o →
      (∀ d ∈ ds, d ∈ v) →
      ((∀ m, (children env m).Nodup) → ds.Nodup) →
      o.visited = v ∪ o.flat.toFinset ∧
      (∀ x ∈ o.flat, x ∈ ds ∨ x ∉ v) ∧
      ((∀ m, (children env m).Nodup) → o.flat.Nodup) ∧
      (∀ d ∈ ds, d ∈ o.flat) ∧
      (∀ x ∈ o.flat, ∃ d ∈ ds, Relation.ReflTransGen (edge env) d x) ∧
      (∀ x ∈ o.flat, ∀ y ∈ children env x, y ∈ o.visited) := by
  intro ds
  induction ds with
  | nil =>
    intro v mk o h _ _
    rw [goF_nil] at h
    cases h
    exact ⟨by simp, by simp, fun _ => List.nodup_nil, by simp, by simp, by simp⟩
  | cons d rest ih =>
    intro v mk o h hdv hnodup
    rw [goF_cons] at h
    obtain ⟨o1, h1, h'⟩ := Option.bind_eq_some.mp h
    obtain ⟨o2, h2, ho⟩ := Option.map_eq_some'.mp h'
    subst ho
    obtain ⟨A1, B1, C1, D1, E1, F1⟩ := hstep d v mk o1 h1
    have hdvin : d ∈ v := hdv d (List.mem_cons_self d rest)
    have hrest_v : ∀ d' ∈ rest, d' ∈ o1.visited := by
      intro d' hd'
      rw [A1]
      exact Finset.mem_union_left _ (hdv d' (List.mem_cons_of_mem d hd'))
    have hrest_nodup : (∀ m, (children env m).Nodup) → rest.Nodup :=
      fun hN => (hnodup hN).of_cons
    obtain ⟨A2, B2, C2, D2, E2, F2⟩ := ih o1.visited o1.mocks o2 h2 hrest_v hrest_nodup
    have hsub1 : o1.visited ⊆ o2.visited := by
      rw [A2]
      exact Finset.subset_union_left
    have hflat1sub : ∀ x ∈ o1.flat, x ∈ o1.visited := by
      intro x hx
      rw [A1]
      exact Finset.mem_union_right _ (List.mem_toFinset.mpr hx)
    refine ⟨?_, ?_, ?_, ?_, ?_, ?_⟩
    · show o2.visited = v ∪ (d :: o1.flat ++ o2.flat).toFinset
      rw [A2, A1]
      ext x
      simp only [Finset.mem_union, List.toFinset_cons, List.toFinset_append,
        Finset.mem_insert, List.mem_toFinset]
      constructor
      · rintro ((hx | hx) | hx)
        · exact Or.inl hx
        · exact Or.inr (Or.inl (Or.inr hx))
        · exact Or.inr (Or.inr hx)
      · rintro (hx | (rfl | hx) | hx)
        · exact Or.inl (Or.inl hx)
        · exact Or.inl (Or.inl hdvin)
        · exact Or.inl (Or.inr hx)
        · exact Or.inr hx
    · show ∀ x ∈ d :: o1.flat ++ o2.flat, x ∈ d :: rest ∨ x ∉ v
      intro x hx
      rcases List.mem_cons.mp hx with rfl | hx
      · exact Or.inl (List.mem_cons_self x rest)
      rcases List.mem_append.mp hx with hx | hx
      · exact Or.inr (B1 x hx)
      · rcases B2 x hx with hx' | hx'
        · exact Or.inl (List.mem_cons_of_mem d hx')
        · exact Or.inr (fun hv => hx' (by rw [A1]; exact Finset.mem_union_left _ hv))
    · show (∀ m, (children env m).Nodup) → (d :: o1.flat ++ o2.flat).Nodup
      intro hN
      have hdrest : d ∉ rest := (List.nodup_cons.mp (hnodup hN)).1
      have hd1 : d ∉ o1.flat := fun hd1 => (B1 d hd1) hdvin
      have hd2 : d ∉ o2.flat := by
        intro hd2
        rcases B2 d hd2 with h' | h'
        · exact hdrest h'
        · exact h' (by rw [A1]; exact Finset.mem_union_left _ hdvin)
      have hdisj : ∀ x ∈ o1.flat, x ∉ o2.flat := by
        intro x hx1 hx2
        rcases B2 x hx2 with h' | h'
        · exact (B1 x hx1) (hdv x (List.mem_cons_of_mem d h'))
        · exact h' (hflat1sub x hx1)
      have hdmem : d ∉ o1.flat ++ o2.flat := by
        intro hmem
        rcases List.mem_append.mp hmem with h' | h'
        · exact hd1 h'
        · exact hd2 h'
      exact List.Nodup.cons hdmem
        (List.Nodup.append (C1 hN) (C2 hN) (fun x hx1 hx2 => hdisj x hx1 hx2))
    · show ∀ d' ∈ d :: rest, d' ∈ d :: o1.flat ++ o2.flat
      intro d' hd'
      rcases List.mem_cons.mp hd' with rfl | hd'
      · exact List.mem_cons_self d' (o1.flat ++ o2.flat)
      · exact List.mem_cons_of_mem d (List.mem_append.mpr (Or.inr (D2 d' hd')))
    · show ∀ x ∈ d :: o1.flat ++ o2.flat,
        ∃ d' ∈ d :: rest, Relation.ReflTransGen (edge env) d' x
      intro x hx
      rcases List.mem_cons.mp hx with rfl | hx
      · exact ⟨x, List.mem_cons_self x rest, Relation.ReflTransGen.refl⟩
      rcases List.mem_append.mp hx with hx | hx
      · exact ⟨d, List.mem_cons_self d rest, D1 x hx⟩
      · obtain ⟨d', hd', hr⟩ := E2 x hx
        exact ⟨d', List.mem_cons_of_mem d hd', hr⟩
    · show ∀ x ∈ d :: o1.flat ++ o2.flat, ∀ y ∈ children env x, y ∈ o2.visited
      intro x hx y hy
      rcases List.mem_cons.mp hx with rfl | hx
      · exact hsub1 (E1 y hy)
      rcases List.mem_append.mp hx with hx | hx
      · exact hsub1 (F1 x hx y hy)
      · exact F2 x hx y hy

theorem collectF_invariant {n : Nat} (env : CEnv n) (hA : env.allMocks = none) :
    ∀ (fuel : Nat) (mod : Fin n) (v : Finset (Fin n)) (mk : List String)
      (o : CollectOut n),
      collectF env fuel mod v mk = some o →
      o.visited = v ∪ o.flat.toFinset ∧
      (∀ x ∈ o.flat, x ∉ v) ∧
      ((∀ m, (children env m).Nodup) → o.flat.Nodup) ∧
      (∀ x ∈ o.flat, Relation.ReflTransGen (edge env) mod x) ∧
      (∀ y ∈ children env mod, y ∈ o.visited) ∧
      (∀ x ∈ o.flat, ∀ y ∈ children env x, y ∈ o.visited) := by
  intro fuel
  induction fuel with
  | zero => intro mod v mk o h; cases h
  | succ fuel ih =>
    intro mod v mk o h
    rw [collectF_succ] at h
    obtain ⟨oG, hG, ho⟩ := Option.map_eq_some'.mp h
    subst ho
    rw [newDeps_none env hA] at hG
    have hdv : ∀ d ∈ (children env mod).filter (fun d => d ∉ v),
        d ∈ v ∪ ((children env mod).filter (fun d => d ∉ v)).toFinset :=
      fun d hd => Finset.mem_union_right _ (List.mem_toFinset.mpr hd)
    have hnodup : (∀ m, (children env m).Nodup) →
        ((children env mod).filter (fun d => d ∉ v)).Nodup :=
      fun hN => (hN mod).filter _
    obtain ⟨A, B, C, D, E, F⟩ :=
      goF_invariant env _ (fun d v' mk' o' h' => ih d v' mk' o' h') _ _ _ oG hG hdv hnodup
    refine ⟨?_, ?_, ?_, ?_, ?_, ?_⟩
    · show oG.visited = v ∪ oG.flat.toFinset
      rw [A]
      ext x
      simp only [Finset.mem_union, List.mem_toFinset]
      constructor
      · rintro ((hx | hx) | hx)
        · exact Or.inl hx
        · exact Or.inr (D x hx)
        · exact Or.inr hx
      · rintro (hx | hx)
        · exact Or.inl (Or.inl hx)
        · exact Or.inr hx
    · show ∀ x ∈ oG.flat, x ∉ v
      intro x hx
      rcases B x hx with h' | h'
      · have := List.of_mem_filter h'
        simpa using this
      · exact fun hv => h' (Finset.mem_union_left _ hv)
    · exact C
    · show ∀ x ∈ oG.flat, Relation.ReflTransGen (edge env) mod x
      intro x hx
      obtain ⟨d, hd, hr⟩ := E x hx
      exact Relation.ReflTransGen.head (List.mem_of_mem_filter hd) hr
    · show ∀ y ∈ children env mod, y ∈ oG.visited
      intro y hy
      rw [A]
      by_cases hyv : y ∈ v
      · exact Finset.mem_union_left _ (Finset.mem_union_left _ hyv)
      · have hmem : y ∈ (children env mod).filter (fun d => d ∉ v) :=
          List.mem_filter.mpr ⟨hy, by simpa using hyv⟩
        exact Finset.mem_union_left _
          (Finset.mem_union_right _ (List.mem_toFinset.mpr hmem))
    · exact F


theorem goF_parented {n : Nat} (env : CEnv n)
    (step : Fin n → Finset (Fin n) → List String → Option (CollectOut n))
    (root : Fin n)
    (hstep : ∀ d v mk o, step d v mk = some o → ParentedFrom env d o.flat) :
    ∀ (ds : List (Fin n)) (v : Finset (Fin n)) (mk : List String) (o : CollectOut n),
      goF step ds v mk = some o →
      (∀ d ∈ ds, d ∈ children env root) →
      ParentedFrom env root o.flat := by
  intro ds
  induction ds with
  | nil =>
    intro v mk o h _
    rw [goF_nil] at h
    cases h
    intro a x b hx
    exact absurd hx.symm (by simp)
  | cons d rest ih =>
    intro v mk o h hds
    rw [goF_cons] at h
    obtain ⟨o1, h1, h'⟩ := Option.bind_eq_some.mp h
    obtain ⟨o2, h2, ho⟩ := Option.map_eq_some'.mp h'
    subst ho
    have hP1 : ParentedFrom env d o1.flat := hstep d v mk o1 h1
    have hP2 : ParentedFrom env root o2.flat :=
      ih o1.visited o1.mocks o2 h2 (fun d' hd' => hds d' (List.mem_cons_of_mem d hd'))
    have hdc : d ∈ children env root := hds d (List.mem_cons_self d rest)
    intro a x b hx
    cases a with
    | nil =>
      have hx' : d = x ∧ o1.flat ++ o2.flat = b := by
        rw [List.nil_append] at hx
        exact ⟨by injection hx, by injection hx⟩
      exact Or.inl (hx'.1 ▸ hdc)
    | cons a0 a' =>
      rw [List.cons_append] at hx
      have h0 : d = a0 := by injection hx
      have htl : o1.flat ++ o2.flat = a' ++ x :: b := by injection hx
      subst h0
      rcases List.append_eq_append_iff.mp htl with ⟨w, hw1, hw2⟩ | ⟨w, hw1, hw2⟩
      · -- x occurs inside o2.flat, at prefix w of it
        rcases hP2 w x b hw2 with hx' | ⟨p, hp, hp'⟩
        · exact Or.inl hx'
        · refine Or.inr ⟨p, ?_, hp'⟩
          exact List.mem_cons_of_mem d (hw1 ▸ List.mem_append_right o1.flat hp)
      · -- the split point is inside o1.flat
        cases w with
        | nil =>
          rw [List.nil_append] at hw2
          rcases hP2 [] x b hw2.symm with hx' | ⟨p, hp, _⟩
          · exact Or.inl hx'
          · exact absurd hp (by simp)
        | cons w0 w' =>
          have hxw : x = w0 ∧ b = w' ++ o2.flat := by
            rw [List.cons_append] at hw2
            exact ⟨by injection hw2, by injection hw2⟩
          have hfl1 : o1.flat = a' ++ x :: w' := by
            rw [hw1, hxw.1]
          rcases hP1 a' x w' hfl1 with hx' | ⟨p, hp, hp'⟩
          · exact Or.inr ⟨d, List.mem_cons_self d a', hx'⟩
          · exact Or.inr ⟨p, List.mem_cons_of_mem d hp, hp'⟩

theorem collectF_parented {n : Nat} (env : CEnv n) (hA : env.allMocks = none) :
    ∀ (fuel : Nat) (mod : Fin n) (v : Finset (Fin n)) (mk : List String)
      (o : CollectOut n),
      collectF env fuel mod v mk = some o → ParentedFrom env mod o.flat := by
  intro fuel
  induction fuel with
  | zero => intro mod v mk o h; cases h
  | succ fuel ih =>
    intro mod v mk o h
    rw [collectF_succ] at h
    obtain ⟨oG, hG, ho⟩ := Option.map_eq_some'.mp h
    subst ho
    rw [newDeps_none env hA] at hG
    exact goF_parented env _ mod (fun d v' mk' o' h' => ih d v' mk' o' h') _ _ _ oG hG
      (fun d hd => List.mem_of_mem_filter hd)


theorem collectF_reach_closed {n : Nat} (env : CEnv n) (hA : env.allMocks = none)
    (fuel : Nat) (entry : Fin n) (o : CollectOut n)
    (ho : collectF env fuel entry {entry} [] = some o) :
    ∀ x, Relation.ReflTransGen (edge env) entry x → x ∈ entry :: o.flat := by
  obtain ⟨A, _, _, _, E, F⟩ := collectF_invariant env hA fuel entry _ _ o ho
  intro x hr
  have hxv : x ∈ o.visited := by
    induction hr with
    | refl =>
      rw [A]
      exact Finset.mem_union_left _ (Finset.mem_singleton_self entry)
    | @tail b c hab hbc ih =>
      rw [A] at ih
      rcases Finset.mem_union.mp ih with hy | hy
      · have hb : b = entry := Finset.mem_singleton.mp hy
        subst hb
        exact E c hbc
      · exact F b (List.mem_toFinset.mp hy) c hbc
  rw [A] at hxv
  rcases Finset.mem_union.mp hxv with hy | hy
  · rw [Finset.mem_singleton.mp hy]
    exact List.mem_cons_self entry o.flat
  · exact List.mem_cons_of_mem entry (List.mem_toFinset.mp hy)

/-- C7 (amended): the Response's module sequence starts with the
entry module, and every later module is preceded by a module of which
it is a resolved dependency (its discoverer): the order is a
depth-first preorder of the discovery tree, not breadth-first by
discovery. -/
theorem c7_order_amended :
    ∀ (n : Nat) (env : CEnv n) (fuel : Nat) (entry : Fin n) (resp : List (Fin n)),
      env.allMocks = none →
      getOrderedDeps env fuel entry = some resp →
      resp.head? = some entry ∧
      (∀ a x b, resp = a ++ x :: b → a ≠ [] → ∃ p ∈ a, x ∈ children env p) := by
  intro n env fuel entry resp hA h
  obtain ⟨o, ho, hresp⟩ := Option.map_eq_some'.mp h
  subst hresp
  constructor
  · rfl
  · intro a x b hx ha
    have hP : ParentedFrom env entry o.flat := collectF_parented env hA fuel entry _ _ o ho
    cases a with
    | nil => exact absurd rfl ha
    | cons a0 a' =>
      rw [List.cons_append] at hx
      have h0 : entry = a0 := by injection hx
      have htl : o.flat = a' ++ x :: b := by injection hx
      subst h0
      rcases hP a' x b htl with hx' | ⟨p, hp, hp'⟩
      · exact ⟨entry, List.mem_cons_self entry a', hx'⟩
      · exact ⟨p, List.mem_cons_of_mem entry hp, hp'⟩

/-- C7 witness: the order theorem evaluated on the four-module
example graph. -/
theorem c7_order_witness :
    getOrderedDeps envWide 4 0 = some [0, 1, 3, 2] ∧
      (1 : Fin 4) ∈ children envWide 0 := by
  refine ⟨by decide, ?_⟩
  obtain ⟨p, hp, hc⟩ :=
    (c7_order_amended 4 envWide 4 0 [0, 1, 3, 2] rfl (by decide)).2
      [0] 1 [3, 2] (by decide) (by simp)
  have hp0 : p = 0 := by simpa using hp
  exact hp0 ▸ hc

/-- C7 counterexample: in the graph where the entry requires `1` and
`2` and module `1` requires `3`, module `2` is discovered (marked
visited) before module `3`, yet the Response sequence is `[0, 1, 3,
2]` — a module discovered earlier appears after one discovered later,
so the sequence is not breadth-first by discovery. -/
theorem c7_bfs_counterexample :
    getOrderedDeps envWide 4 0 = some [0, 1, 3, 2] ∧
    discoveryOrder envWide 4 0 = some [0, 1, 2, 3] ∧
    [(0 : Fin 4), 1, 2, 3].indexOf 2 < [(0 : Fin 4), 1, 2, 3].indexOf 3 ∧
    [(0 : Fin 4), 1, 3, 2].indexOf 3 < [(0 : Fin 4), 1, 3, 2].indexOf 2 := by
  decide

/-- C8 (amended): for every finite dependency graph — cyclic ones
included — the traversal terminates (fuel `n` always suffices); and
provided no module's resolved pairs list the same target twice, every
reachable module, the entry included, appears exactly once in the
Response's module sequence (the sequence is duplicate-free and its
members are exactly the modules reachable from the entry). -/
theorem c8_termination_dedup_amended :
    (∀ (n : Nat) (env : CEnv n) (entry : Fin n),
        (collectF env n entry {entry} []).isSome) ∧
    (∀ (n : Nat) (env : CEnv n) (fuel : Nat) (entry : Fin n) (resp : List (Fin n)),
        env.allMocks = none →
        (∀ m, (children env m).Nodup) →
        getOrderedDeps env fuel entry = some resp →
        resp.Nodup ∧
        (∀ x, x ∈ resp ↔ Relation.ReflTransGen (edge env) entry x)) := by
  constructor
  · intro n env entry
    apply collectF_isSome
    simp
  · intro n env fuel entry resp hA hN h
    obtain ⟨o, ho, hresp⟩ := Option.map_eq_some'.mp h
    have hclosed := collectF_reach_closed env hA fuel entry o ho
    obtain ⟨A, B, C, D, _, _⟩ := collectF_invariant env hA fuel entry _ _ o ho
    subst hresp
    constructor
    · apply List.Nodup.cons
      · intro hmem
        exact (B entry hmem) (Finset.mem_singleton_self entry)
      · exact C hN
    · intro x
      constructor
      · intro hx
        rcases List.mem_cons.mp hx with rfl | hx
        · exact Relation.ReflTransGen.refl
        · exact D x hx
      · exact hclosed x

/-- C8 witness: the circular graph `0 ↔ 1` terminates with both
modules exactly once. -/
theorem c8_termination_witness :
    getOrderedDeps envCycle 2 0 = some [0, 1] ∧ [(0 : Fin 2), 1].Nodup :=
  ⟨by decide,
    (c8_termination_dedup_amended.2 2 envCycle 2 0 [0, 1] rfl (by decide) (by decide)).1⟩

/-- C8 counterexample: when the entry's dependency list resolves the
same target module `1` under two names, module `1` is appended and
traversed twice — the Response is `[0, 1, 1]`, so "every reachable
module appears exactly once" is false as stated. -/
theorem c8_duplicate_pair_counterexample :
    getOrderedDeps envDup 2 0 = some [0, 1, 1] ∧
    [(0 : Fin 2), 1, 1].count 1 = 2 := by
  decide

/-- C6: when the policy hook is false for the entry/platform, an
`UnableToResolve` failure in `resolveDependency` becomes a `null`
result instead of propagating, while a true hook or any other error
kind re-throws; the collector omits `null` edges from the requesting
module's resolved pairs (in a mockless build they are exactly the
non-null resolutions), and the build still completes with every other
reachable module included. -/
theorem c6_tolerated_unresolved :
    (∀ (cfg : RDCfg) (cache : List (String × String)) (fromPath toName : String)
        (e : RErr),
        alookup (resolutionHash cfg fromPath toName) cache = none →
        cfg.assetResolve fromPath toName = none →
        cfg.pipeline fromPath toName = .error e →
        ((e.isUTR = true ∧ cfg.shouldThrow = false →
            resolveDependencyM cfg cache fromPath toName = ⟨.ok none, cache, true⟩) ∧
          (e.isUTR = false ∨ cfg.shouldThrow = true →
            resolveDependencyM cfg cache fromPath toName = ⟨.error e, cache, true⟩))) ∧
    (∀ (n : Nat) (env : CEnv n) (mk : List String)
        (prs : List (String × Option (Fin n))),
        env.allMocks = none →
        filterPairs env mk prs =
          (prs.filterMap (fun pr => pr.2.map (fun m => (pr.1, m))), mk)) ∧
    (∀ (n : Nat) (env : CEnv n) (entry : Fin n),
        env.allMocks = none →
        ∃ resp, getOrderedDeps env n entry = some resp ∧
          ∀ x, Relation.ReflTransGen (edge env) entry x → x ∈ resp) := by
  refine ⟨?_, ?_, ?_⟩
  · intro cfg cache fromPath toName e hmiss hasset hpipe
    constructor
    · rintro ⟨hU, hT⟩
      unfold resolveDependencyM
      simp [hmiss, hasset, hpipe, hU, hT]
    · intro hor
      unfold resolveDependencyM
      rcases hor with hU | hT
      · simp [hmiss, hasset, hpipe, hU]
      · simp [hmiss, hasset, hpipe, hT]
  · intro n env mk prs hA
    exact filterPairs_none env hA mk prs
  · intro n env entry hA
    have hs : (collectF env n entry {entry} []).isSome := by
      apply collectF_isSome
      simp
    obtain ⟨o, ho⟩ := Option.isSome_iff_exists.mp hs
    refine ⟨entry :: o.flat, ?_, collectF_reach_closed env hA n entry o ho⟩
    unfold getOrderedDeps
    rw [ho]
    rfl

/-- C6 witness: a tolerated unresolved edge produces `null` and is
omitted from the resolved pairs while the sibling edge is kept. -/
theorem c6_tolerated_unresolved_witness :
    resolveDependencyM cfgForgive [] "/e.js" "x" = ⟨.ok none, [], true⟩ ∧
      filterPairs envTolerated [] [("x", none), ("y", some 1)] =
        ([("y", (1 : Fin 3))], []) := by
  constructor
  · exact (c6_tolerated_unresolved.1 cfgForgive [] "/e.js" "x"
      (mkUTR "/e.js" "x" "Node module not found") rfl rfl rfl).1 ⟨rfl, rfl⟩
  · rw [c6_tolerated_unresolved.2.1 3 envTolerated [] [("x", none), ("y", some 1)] rfl]
    decide


end NodeHaste
